import Mathlib

/- Shallow embedding of the rsql-query-builder expression accumulator
   (class RSQLBuilderBase) and its value serializer. Strings are modelled
   as lists of characters and the mutable rsqlStr buffer of a builder
   object is a field of an explicit state record threaded through each
   operation. A call that throws is modelled by returning the state as it
   is at the moment of the throw together with the error. -/

set_option maxHeartbeats 1000000

/-- The two logic operators, rendered as a single character each. -/
inductive LogicOperator
  | and
  | or
deriving DecidableEq

def logicOperatorChar : LogicOperator → Char
  | .and => ';'
  | .or => ','

/-- Decimal digit characters for the number renderer. -/
def digitChar : Nat → Char
  | 0 => '0'
  | 1 => '1'
  | 2 => '2'
  | 3 => '3'
  | 4 => '4'
  | 5 => '5'
  | 6 => '6'
  | 7 => '7'
  | 8 => '8'
  | 9 => '9'
  | _ => '0'

/-- Fuelled accumulator loop producing the decimal digits of a natural
    number, most significant first. The fuel is always at least the
    number of decimal digits at every call site. -/
def natToDigitsAux : Nat → Nat → List Char → List Char
  | 0, _, acc => acc
  | fuel + 1, n, acc =>
      if n = 0 then acc else natToDigitsAux fuel (n / 10) (digitChar (n % 10) :: acc)

/-- Decimal rendering of a natural number. -/
def natToString (n : Nat) : List Char :=
  if n = 0 then ['0'] else natToDigitsAux n n []

/-- A JavaScript number value, modelled as the exact rational
    numerator / denominator with a positive denominator. -/
structure JsNumber where
  num : Int
  den : Nat := 1
deriving DecidableEq

/-- Rounding of a non-negative rational n / d to the nearest integer with
    ties resolved upward: the floor of n / d + 1 / 2. -/
def roundHalfUp (n : Int) (d : Nat) : Nat :=
  Int.toNat (Int.fdiv (2 * n + d) (2 * d))

/-- Semantics of the JavaScript call value.toFixed() with no argument:
    per the ECMAScript Number.prototype.toFixed algorithm, a minus sign is
    emitted for a negative input, and the absolute value is rounded to the
    integer closest to it, the larger one on a tie, rendered in decimal. -/
def jsToFixed (q : JsNumber) : List Char :=
  if q.num < 0 then '-' :: natToString (roundHalfUp (-q.num) q.den)
  else natToString (roundHalfUp q.num q.den)

/-- A JavaScript Date value, kept as broken-down UTC time so that
    toISOString can be rendered structurally. -/
structure JsDate where
  year : Nat := 1970
  month : Nat := 1
  day : Nat := 1
  hour : Nat := 0
  minute : Nat := 0
  second : Nat := 0
  millisecond : Nat := 0
deriving DecidableEq

/-- Left-pad a decimal rendering with zeros to the given width. -/
def padZeros (width : Nat) (n : Nat) : List Char :=
  List.replicate (width - (natToString n).length) '0' ++ natToString n

/-- Date.prototype.toISOString body before the trailing Z. -/
def isoBody (d : JsDate) : List Char :=
  padZeros 4 d.year ++ '-' :: padZeros 2 d.month ++ '-' :: padZeros 2 d.day ++
    'T' :: padZeros 2 d.hour ++ ':' :: padZeros 2 d.minute ++ ':' :: padZeros 2 d.second ++
    '.' :: padZeros 3 d.millisecond

/-- Date.prototype.toISOString: ISO-8601 extended format ending in Z. -/
def toISOString (d : JsDate) : List Char :=
  isoBody d ++ ['Z']

/-- The scalar member of the value union accepted by addComparison.
    The constructor named outside covers a value outside the handled
    union, reachable in the source only through an unsound cast; it

    makes the throw branch of valueToString representable. -/
inductive Scalar
  | str (s : List Char)
  | num (q : JsNumber)
  | bool (b : Bool)
  | date (d : JsDate)
  | null
  | outside
deriving DecidableEq

/-- A comparison value: a scalar or an array of scalars. -/
inductive CValue
  | scalar (v : Scalar)
  | array (vs : List Scalar)
deriving DecidableEq

/-- Per-character escaping used by escapeString: the regex [();,] with
    replacement backslash-match. -/
def escapeChar (c : Char) : List Char :=
  if c == '(' || c == ')' || c == ';' || c == ',' then ['\\', c] else [c]

/-- RSQLBuilderBase.escapeString. -/
def escapeString (input : List Char) : List Char :=
  (input.map escapeChar).flatten

/-- RSQLBuilderBase.valueToString; none models the throw of
    Unhandled value type. -/
def valueToString : Scalar → Option (List Char)
  | .null => some ('n' :: 'u' :: 'l' :: ['l'])
  | .str s => some ('"' :: escapeString s ++ ['"'])
  | .num q => some (jsToFixed q)
  | .bool b => some (if b then 't' :: 'r' :: 'u' :: ['e'] else 'f' :: 'a' :: 'l' :: 's' :: ['e'])
  | .date d => some (toISOString d)
  | .outside => none

/-- A comparison operator table entry: the RSQL literal plus the isArray
    flag, false when absent in the source object literal. -/
structure OperatorSpec where
  rsql : List Char
  isArray : Bool := false
deriving DecidableEq

/-- The built-in comparison operator table of RSQLBuilderBase. -/
def comparisonOperators : List (List Char × OperatorSpec) :=
  [("equal".data, { rsql := "==".data }),
   ("notEqual".data, { rsql := "!=".data }),
   ("lessThan".data, { rsql := "=lt=".data }),
   ("greaterThan".data, { rsql := "=gt=".data }),
   ("lessThanOrEqual".data, { rsql := "=le=".data }),
   ("greaterThanOrEqual".data, { rsql := "=ge=".data }),
   ("in".data, { rsql := "=in=".data, isArray := true }),
   ("notIn".data, { rsql := "=out=".data, isArray := true })]

/-- Construction-time options of RSQLBuilderBase; absent fields are none. -/
structure RSQLBuilderOptions where
  defaultLogicOperator : Option LogicOperator := none
  customComparisonOperators : Option (List (List Char × OperatorSpec)) := none

/-- The state of an RSQLBuilderBase object. -/
structure Builder where
  rsqlStr : List Char := []
  defaultLogicOperator : LogicOperator := .and
  replaceExistingLogicOperator : Bool := true
  customComparisonOperators : List (List Char × OperatorSpec) := []
deriving DecidableEq

/-- The RSQLBuilderBase constructor. -/
def Builder.new (options : RSQLBuilderOptions) : Builder :=
  { rsqlStr := []
    defaultLogicOperator := options.defaultLogicOperator.getD .and
    replaceExistingLogicOperator := true
    customComparisonOperators := options.customComparisonOperators.getD [] }

/-- The check rsqlStr.endsWith of a semicolon or comma performed by
    ensureLogicOperator, expressed on the last character. -/
def endsWithLogicOperator (s : List Char) : Bool :=
  match s.getLast? with
  | some c => c == ';' || c == ','
  | none => false

/-- RSQLBuilderBase.removeTrailingLogicOperator: the while loop slicing
    trailing semicolons and commas, expressed as dropping the matching
    run from the reversed buffer. -/
def removeTrailingLogicOperator (s : List Char) : List Char :=
  (s.reverse.dropWhile (fun c => c == ';' || c == ',')).reverse

/-- RSQLBuilderBase.appendLogicOperator. -/
def appendLogicOperator (b : Builder) (logicOperator : LogicOperator) : Builder :=
  let s := if b.replaceExistingLogicOperator then removeTrailingLogicOperator b.rsqlStr
           else b.rsqlStr
  { b with rsqlStr := s ++ [logicOperatorChar logicOperator] }

/-- RSQLBuilderBase.ensureLogicOperator. -/
def ensureLogicOperator (b : Builder) (logicOperator : Option LogicOperator) : Builder :=
  if b.rsqlStr.length == 0 then b
  else if !(endsWithLogicOperator b.rsqlStr) then
    appendLogicOperator b (logicOperator.getD b.defaultLogicOperator)
  else b

/-- The operator lookup performed by addComparison: the custom table is
    consulted first, the built-in table only when the custom lookup
    misses. -/
def lookupComparisonOperator (b : Builder) (comparisonOperator : List Char) : Option OperatorSpec :=
  (b.customComparisonOperators.lookup comparisonOperator).orElse
    (fun _ => comparisonOperators.lookup comparisonOperator)

/-- The errors thrown by RSQLBuilderBase. -/
inductive BuilderError
  | unsupportedValueType
  | unknownOperator
  | arrayOperatorMismatch
deriving DecidableEq

/-- The value serialization performed inside addComparison when the
    operator has the isArray flag: an array is serialized elementwise,
    a scalar is wrapped into a one-element list first. -/
def arrayStrings : CValue → Option (List (List Char))
  | .array vs => vs.mapM valueToString
  | .scalar v => (valueToString v).map (fun s => [s])

/-- RSQLBuilderBase.addComparison. The returned state is the state at
    the end of the call or, when an error is signalled, at the moment of
    the throw. -/
def Builder.addComparison (b : Builder) (selector : List Char)
    (comparisonOperator : List Char) (value : CValue) : Builder × Option BuilderError :=
  let b1 := ensureLogicOperator b none
  match lookupComparisonOperator b1 comparisonOperator with
  | none => (b1, some .unknownOperator)
  | some operator =>
    if operator.isArray then
      match arrayStrings value with
      | none => (b1, some .unsupportedValueType)
      | some strArray =>
          ({ b1 with rsqlStr := b1.rsqlStr ++ selector ++ operator.rsql ++
              '(' :: List.intercalate [','] strArray ++ [')'] }, none)
    else
      match value with
      | .array _ => (b1, some .arrayOperatorMismatch)
      | .scalar v =>
        match valueToString v with
        | none => (b1, some .unsupportedValueType)
        | some str =>
            ({ b1 with rsqlStr := b1.rsqlStr ++ selector ++ operator.rsql ++ str }, none)

/-- RSQLBuilderBase.addLogicOperator. -/
def Builder.addLogicOperator (b : Builder) (logicOperator : LogicOperator) : Builder :=
  appendLogicOperator b logicOperator

/-- RSQLBuilderBase.toString: returns the buffer verbatim. -/
def Builder.toString (b : Builder) : List Char :=
  b.rsqlStr

/-- RSQLBuilderBase.toString viewed as a method call on a builder object,
    returning the possibly updated receiver next to the result. -/
def Builder.toStringM (b : Builder) : List Char × Builder :=
  (b.rsqlStr, b)

/-- RSQLBuilderBase.isEmpty. -/
def Builder.isEmpty (b : Builder) : Bool :=
  b.rsqlStr.length == 0

/-- RSQLBuilderBase.isEmpty viewed as a method call on a builder object. -/
def Builder.isEmptyM (b : Builder) : Bool × Builder :=
  (b.rsqlStr.length == 0, b)

/-- RSQLBuilderBase.reset. -/
def Builder.reset (b : Builder) : Builder :=
  { b with rsqlStr := [] }

/-- RSQLBuilderBase.and. -/
def Builder.and (b : Builder) : Builder :=
  appendLogicOperator b .and

/-- RSQLBuilderBase.or. -/
def Builder.or (b : Builder) : Builder :=
  appendLogicOperator b .or

/-- RSQLBuilderBase.concat. The second component is the state of the
    argument builder after the call. -/
def Builder.concat (b other : Builder) : Builder × Builder :=
  let e := Builder.isEmptyM other
  if e.1 then (b, e.2)
  else
    let b1 := ensureLogicOperator b none
    let t := Builder.toStringM e.2
    ({ b1 with rsqlStr := b1.rsqlStr ++ t.1 }, t.2)

/-- RSQLBuilderBase.group. The second component is the state of the
    argument builder after the call. -/
def Builder.group (b other : Builder) : Builder × Builder :=
  let b1 := ensureLogicOperator b none
  let t := Builder.toStringM other
  ({ b1 with rsqlStr := b1.rsqlStr ++ '(' :: t.1 ++ [')'] }, t.2)

/-- RSQLBuilderBase.merge (instance method). The second component holds
    the states of the argument builders after the call. -/
def Builder.merge (b : Builder) (builders : List Builder)
    (operator : Option LogicOperator) : Builder × List Builder :=
  match builders with
  | [] => (b, [])
  | builder :: rest =>
      let b1 := ensureLogicOperator b operator
      let g := Builder.group b1 builder
      let m := Builder.merge g.1 rest operator
      (m.1, g.2 :: m.2)

/-- RSQLBuilderBase.merge (static method): a fresh builder constructed
    from the given options, then the instance merge with no explicit
    operator. -/
def Builder.mergeStatic (builders : List Builder) (options : RSQLBuilderOptions) :
    Builder × List Builder :=
  Builder.merge (Builder.new options) builders none

/- Helper lemmas about the buffer-manipulation primitives. -/

/-- Either logic operator character is a semicolon or a comma. -/
theorem logicOperatorChar_mem (op : LogicOperator) :
    (logicOperatorChar op == ';' || logicOperatorChar op == ',') = true := by
  cases op <;> decide

/-- The buffer ends with a logic operator after appending a single
    character exactly when that character is a semicolon or comma. -/
theorem endsWithLogicOperator_append_singleton (s : List Char) (c : Char) :
    endsWithLogicOperator (s ++ [c]) = (c == ';' || c == ',') := by
  unfold endsWithLogicOperator
  rw [List.getLast?_concat]

/-- Removing trailing logic operators from a buffer that does not end with
    one leaves it unchanged. -/
theorem removeTrailingLogicOperator_id (s : List Char)
    (h : endsWithLogicOperator s = false) : removeTrailingLogicOperator s = s := by
  unfold removeTrailingLogicOperator
  cases hs : s.reverse with
  | nil =>
      have : s = [] := by simpa using congrArg List.reverse hs
      simp [this]
  | cons c t =>
      have hc : s.getLast? = some c := by
        rw [← List.head?_reverse, hs]
        rfl
      have hpc : (c == ';' || c == ',') = false := by
        unfold endsWithLogicOperator at h
        rw [hc] at h
        exact h
      simp only [List.dropWhile_cons, hpc, Bool.false_eq_true, if_false]
      have hrev : s = (c :: t).reverse := by
        simpa using congrArg List.reverse hs
      exact hrev.symm

/-- Appending a logic operator character to an already trimmed buffer and
    trimming again gives the trimmed buffer back. -/
theorem removeTrailingLogicOperator_append (s : List Char) (c : Char)
    (h : (c == ';' || c == ',') = true) :
    removeTrailingLogicOperator (removeTrailingLogicOperator s ++ [c])
      = removeTrailingLogicOperator s := by
  unfold removeTrailingLogicOperator
  rw [List.reverse_append]
  simp only [List.reverse_cons, List.reverse_nil, List.nil_append, List.reverse_reverse,
    List.singleton_append, List.dropWhile_cons, h, if_true]
  rw [List.dropWhile_idempotent]

/-- The buffer produced by ensureLogicOperator: unchanged when empty or
    already ending with a logic operator, the appended operator character
    otherwise. -/
def ensuredStr (s : List Char) (tok : Char) : List Char :=
  if s.length == 0 || endsWithLogicOperator s then s else s ++ [tok]

/-- Unfolding of ensureLogicOperator as a pure buffer transformation. -/
theorem ensureLogicOperator_eq (b : Builder) (o : Option LogicOperator) :
    ensureLogicOperator b o
      = { b with rsqlStr :=
            ensuredStr b.rsqlStr (logicOperatorChar (o.getD b.defaultLogicOperator)) } := by
  unfold ensureLogicOperator ensuredStr
  cases h0 : (b.rsqlStr.length == 0) with
  | true => simp [h0]
  | false =>
      cases he : endsWithLogicOperator b.rsqlStr with
      | true => simp [h0, he]
      | false =>
          simp only [h0, he, Bool.false_eq_true, if_false, Bool.not_false, if_true,
            Bool.false_or]
          unfold appendLogicOperator
          rw [removeTrailingLogicOperator_id _ he]
          simp

/-- Applying ensuredStr twice with logic operator characters is the same
    as applying it once. -/
theorem ensuredStr_ensuredStr (s : List Char) (tok tok' : Char)
    (h : (tok == ';' || tok == ',') = true) :
    ensuredStr (ensuredStr s tok) tok' = ensuredStr s tok := by
  unfold ensuredStr
  cases hc : (s.length == 0 || endsWithLogicOperator s) with
  | true => simp [hc]
  | false =>
      simp only [hc, Bool.false_eq_true, if_false]
      have h1 : ((s ++ [tok]).length == 0) = false := by
        simp [List.length_append]
      have h2 : endsWithLogicOperator (s ++ [tok]) = true := by
        rw [endsWithLogicOperator_append_singleton]
        exact h
      simp [h1, h2]

/-- Running ensureLogicOperator on a buffer already ensured is the
    identity, whatever operators are requested. -/
theorem ensureLogicOperator_ensure (b : Builder) (o o' : Option LogicOperator) :
    ensureLogicOperator (ensureLogicOperator b o) o' = ensureLogicOperator b o := by
  rw [ensureLogicOperator_eq b o, ensureLogicOperator_eq]
  simp only
  rw [ensuredStr_ensuredStr _ _ _ (logicOperatorChar_mem _)]

/-- ensureLogicOperator only ever appends to the buffer. -/
theorem ensureLogicOperator_suffix (b : Builder) (o : Option LogicOperator) :
    ∃ t, (ensureLogicOperator b o).rsqlStr = b.rsqlStr ++ t := by
  rw [ensureLogicOperator_eq]
  unfold ensuredStr
  cases hc : (b.rsqlStr.length == 0 || endsWithLogicOperator b.rsqlStr) with
  | true => exact ⟨[], by simp [hc]⟩
  | false => exact ⟨[logicOperatorChar (o.getD b.defaultLogicOperator)], by simp [hc]⟩

/-- The digit renderer never produces a logic operator character. -/
theorem digitChar_not_logic (d : Nat) :
    (digitChar d == ';' || digitChar d == ',') = false := by
  unfold digitChar
  split <;> decide

/-- The fuelled digit loop only prepends characters to its accumulator. -/
theorem natToDigitsAux_append (fuel : Nat) :
    ∀ (n : Nat) (acc : List Char), ∃ p, natToDigitsAux fuel n acc = p ++ acc := by
  induction fuel with
  | zero => exact fun n acc => ⟨[], rfl⟩
  | succ fuel ih =>
      intro n acc
      unfold natToDigitsAux
      cases hn : decide (n = 0) with
      | true =>
          simp only [of_decide_eq_true hn, if_true]
          exact ⟨[], rfl⟩
      | false =>
          simp only [of_decide_eq_false hn, if_false]
          obtain ⟨p, hp⟩ := ih (n / 10) (digitChar (n % 10) :: acc)
          exact ⟨p ++ [digitChar (n % 10)], by rw [hp]; simp⟩

/-- The decimal rendering of a natural number ends in a digit. -/
theorem natToString_shape (n : Nat) :
    ∃ p d, natToString n = p ++ [digitChar d] := by
  unfold natToString
  cases hn : decide (n = 0) with
  | true =>
      simp only [of_decide_eq_true hn, if_true]
      exact ⟨[], 0, rfl⟩
  | false =>
      have hn' : ¬ n = 0 := of_decide_eq_false hn
      simp only [hn', if_false]
      cases n with
      | zero => exact absurd rfl hn'
      | succ k =>
          unfold natToDigitsAux
          simp only [Nat.succ_ne_zero, if_false]
          obtain ⟨p, hp⟩ := natToDigitsAux_append k ((k + 1) / 10) [digitChar ((k + 1) % 10)]
          exact ⟨p, (k + 1) % 10, hp⟩

/-- Every successful scalar serialization ends in a character that is not
    a logic operator character. -/
theorem valueToString_shape (v : Scalar) (s : List Char)
    (h : valueToString v = some s) :
    ∃ q c, (c == ';' || c == ',') = false ∧ s = q ++ [c] := by
  cases v with
  | str t =>
      refine ⟨'"' :: escapeString t, '"', by decide, ?_⟩
      injection h with h
      exact h.symm
  | num q =>
      injection h with h
      unfold jsToFixed at h
      by_cases hneg : q.num < 0
      · rw [if_pos hneg] at h
        obtain ⟨p, d, hp⟩ := natToString_shape (roundHalfUp (-q.num) q.den)
        refine ⟨'-' :: p, digitChar d, digitChar_not_logic d, ?_⟩
        rw [← h, hp]
        rfl
      · rw [if_neg hneg] at h
        obtain ⟨p, d, hp⟩ := natToString_shape (roundHalfUp q.num q.den)
        exact ⟨p, digitChar d, digitChar_not_logic d, by rw [← h, hp]⟩
  | bool b =>
      cases b with
      | true =>
          refine ⟨['t', 'r', 'u'], 'e', by decide, ?_⟩
          injection h with h
          exact h.symm
      | false =>
          refine ⟨['f', 'a', 'l', 's'], 'e', by decide, ?_⟩
          injection h with h
          exact h.symm
  | date d =>
      refine ⟨isoBody d, 'Z', by decide, ?_⟩
      injection h with h
      exact h.symm
  | null =>
      refine ⟨['n', 'u', 'l'], 'l', by decide, ?_⟩
      injection h with h
      exact h.symm
  | outside => exact Option.noConfusion h

/-- The operator lookup is unaffected by ensureLogicOperator. -/
theorem lookupComparisonOperator_ensure (b : Builder) (o : Option LogicOperator)
    (op : List Char) :
    lookupComparisonOperator (ensureLogicOperator b o) op = lookupComparisonOperator b op := by
  rw [ensureLogicOperator_eq]
  rfl

/-- Shape of a successful addComparison: the ensured buffer followed by
    selector, operator literal and a serialized payload ending in a
    character that is not a logic operator character. -/
theorem addComparison_ok (b : Builder) (sel op : List Char) (v : CValue)
    (spec : OperatorSpec)
    (hspec : lookupComparisonOperator b op = some spec)
    (hok : (Builder.addComparison b sel op v).2 = none) :
    ∃ q c, (c == ';' || c == ',') = false ∧
      (Builder.addComparison b sel op v).1.rsqlStr
        = (ensureLogicOperator b none).rsqlStr ++ sel ++ spec.rsql ++ q ++ [c] := by
  have hl : lookupComparisonOperator (ensureLogicOperator b none) op = some spec := by
    rw [lookupComparisonOperator_ensure]
    exact hspec
  unfold Builder.addComparison at hok ⊢
  simp only [hl] at hok ⊢
  by_cases ha : spec.isArray = true
  · simp only [ha, if_true] at hok ⊢
    cases harr : arrayStrings v with
    | none => simp [harr] at hok
    | some arr =>
        simp only [harr] at hok ⊢
        exact ⟨'(' :: List.intercalate [','] arr, ')', by decide, rfl⟩
  · simp only [ha, if_false] at hok ⊢
    cases v with
    | array vs => simp at hok
    | scalar sv =>
        cases hvs : valueToString sv with
        | none => simp [hvs] at hok
        | some str =>
            simp only [hvs] at hok ⊢
            obtain ⟨q, c, hc, hqc⟩ := valueToString_shape sv str hvs
            refine ⟨q, c, hc, ?_⟩
            rw [hqc]
            simp [List.append_assoc]

/-- C3: on a buffer ending with a comparison, addComparison with a known
    operator first appends the default logic operator token, then the
    selector, the operator literal and the serialized value, leaving a
    buffer that again ends with a comparison; on an empty buffer no logic
    operator is inserted. -/
theorem addComparison_appends_comparison (b : Builder) (sel op : List Char) (v : CValue)
    (spec : OperatorSpec)
    (hspec : lookupComparisonOperator b op = some spec)
    (hok : (Builder.addComparison b sel op v).2 = none) :
    (b.rsqlStr ≠ [] → endsWithLogicOperator b.rsqlStr = false →
        ∃ payload, payload ≠ [] ∧
          (Builder.addComparison b sel op v).1.rsqlStr
            = b.rsqlStr ++ logicOperatorChar b.defaultLogicOperator :: (sel ++ spec.rsql ++ payload))
    ∧ (b.rsqlStr = [] →
        ∃ payload, (Builder.addComparison b sel op v).1.rsqlStr = sel ++ spec.rsql ++ payload)
    ∧ endsWithLogicOperator (Builder.addComparison b sel op v).1.rsqlStr = false := by
  obtain ⟨q, c, hc, heq⟩ := addComparison_ok b sel op v spec hspec hok
  refine ⟨?_, ?_, ?_⟩
  · intro hne hend
    have h0 : (b.rsqlStr.length == 0) = false := by
      simp only [beq_eq_false_iff_ne, ne_eq, List.length_eq_zero]
      exact hne
    refine ⟨q ++ [c], by simp, ?_⟩
    rw [heq, ensureLogicOperator_eq]
    simp only [ensuredStr, h0, hend, Bool.or_self, Bool.false_eq_true, if_false, Option.getD]
    simp [List.append_assoc]
  · intro hemp
    refine ⟨q ++ [c], ?_⟩
    rw [heq, ensureLogicOperator_eq]
    simp only [ensuredStr, hemp]
    simp [List.append_assoc]
  · rw [heq, endsWithLogicOperator_append_singleton]
    exact hc

def wb3 : Builder := { rsqlStr := "a==1".data }

/-- Witness for C3 at a concrete builder whose buffer ends with a
    comparison. -/
theorem addComparison_appends_comparison_witness :
    (lookupComparisonOperator wb3 "equal".data = some { rsql := "==".data }
      ∧ (Builder.addComparison wb3 "b".data "equal".data (.scalar (.num { num := 2 }))).2 = none)
    ∧ ((wb3.rsqlStr ≠ [] → endsWithLogicOperator wb3.rsqlStr = false →
          ∃ payload, payload ≠ [] ∧
            (Builder.addComparison wb3 "b".data "equal".data (.scalar (.num { num := 2 }))).1.rsqlStr
              = wb3.rsqlStr ++ logicOperatorChar wb3.defaultLogicOperator :: ("b".data ++ "==".data ++ payload))
      ∧ (wb3.rsqlStr = [] →
          ∃ payload, (Builder.addComparison wb3 "b".data "equal".data (.scalar (.num { num := 2 }))).1.rsqlStr
              = "b".data ++ "==".data ++ payload)
      ∧ endsWithLogicOperator (Builder.addComparison wb3 "b".data "equal".data (.scalar (.num { num := 2 }))).1.rsqlStr = false) :=
  ⟨⟨by decide, by decide⟩,
    addComparison_appends_comparison wb3 "b".data "equal".data (.scalar (.num { num := 2 }))
      { rsql := "==".data } (by decide) (by decide)⟩

/-- Two consecutive addLogicOperator calls collapse to the second when
    trailing operators are replaced. -/
theorem addLogicOperator_addLogicOperator (b : Builder) (a c : LogicOperator)
    (h : b.replaceExistingLogicOperator = true) :
    Builder.addLogicOperator (Builder.addLogicOperator b a) c
      = Builder.addLogicOperator b c := by
  unfold Builder.addLogicOperator appendLogicOperator
  simp only [h, if_true]
  rw [removeTrailingLogicOperator_append _ _ (logicOperatorChar_mem a)]

/-- C4: calling addLogicOperator any number of consecutive times renders
    the same buffer as calling it once with the last requested operator. -/
theorem addLogicOperator_last_write_wins (b : Builder) (ops : List LogicOperator)
    (op : LogicOperator) (h : b.replaceExistingLogicOperator = true) :
    Builder.toString (List.foldl Builder.addLogicOperator b (ops ++ [op]))
      = Builder.toString (Builder.addLogicOperator b op) := by
  induction ops generalizing b with
  | nil => rfl
  | cons a rest ih =>
      rw [List.cons_append, List.foldl_cons]
      have hflag : (Builder.addLogicOperator b a).replaceExistingLogicOperator = true := h
      rw [ih (Builder.addLogicOperator b a) hflag,
        addLogicOperator_addLogicOperator b a op h]

/-- Witness for C4 on a fresh default builder. -/
theorem addLogicOperator_last_write_wins_witness :
    ((Builder.new {}).replaceExistingLogicOperator = true)
    ∧ Builder.toString (List.foldl Builder.addLogicOperator (Builder.new {})
        ([LogicOperator.and, LogicOperator.or] ++ [LogicOperator.and]))
        = Builder.toString (Builder.addLogicOperator (Builder.new {}) LogicOperator.and) :=
  ⟨by decide,
    addLogicOperator_last_write_wins (Builder.new {}) [LogicOperator.and, LogicOperator.or]
      LogicOperator.and (by decide)⟩

/-- The rendering described by the specification for merge: for each part
    in order, ensure a trailing logic operator token and append the part
    wrapped in parentheses. -/
def mergeSpecRendered (s : List Char) (tok : Char) : List (List Char) → List Char
  | [] => s
  | r :: rest => mergeSpecRendered (ensuredStr s tok ++ '(' :: r ++ [')']) tok rest

/-- The instance merge renders exactly per mergeSpecRendered with the
    requested operator or the receiver's default. -/
theorem merge_renders (b : Builder) (builders : List Builder) (o : Option LogicOperator) :
    (Builder.merge b builders o).1.rsqlStr
      = mergeSpecRendered b.rsqlStr (logicOperatorChar (o.getD b.defaultLogicOperator))
          (builders.map (fun x => x.rsqlStr)) := by
  induction builders generalizing b with
  | nil => rfl
  | cons builder rest ih =>
      have hgroup : (Builder.group (ensureLogicOperator b o) builder).1
          = { b with rsqlStr :=
                ensuredStr b.rsqlStr (logicOperatorChar (o.getD b.defaultLogicOperator))
                  ++ '(' :: builder.rsqlStr ++ [')'] } := by
        unfold Builder.group Builder.toStringM
        rw [ensureLogicOperator_ensure, ensureLogicOperator_eq]
      have hstep : (Builder.merge b (builder :: rest) o).1
          = (Builder.merge (Builder.group (ensureLogicOperator b o) builder).1 rest o).1 := rfl
      rw [hstep, hgroup, ih]
      rfl

/-- ensuredStr appends the token to a buffer ending in a non-operator
    character. -/
theorem ensuredStr_append_nonlogic (x : List Char) (c tok : Char)
    (hc : (c == ';' || c == ',') = false) :
    ensuredStr (x ++ [c]) tok = (x ++ [c]) ++ [tok] := by
  unfold ensuredStr
  have h0 : ((x ++ [c]).length == 0) = false := by simp
  rw [endsWithLogicOperator_append_singleton]
  simp [h0, hc]

/-- C5: instance merge appends, for each builder in order, an ensured
    trailing logic operator token followed by the builder's rendered text
    in parentheses; the static merge of two non-empty builders with the
    default configuration renders each one parenthesized, joined by a
    semicolon. -/
theorem merge_parenthesizes_each_builder (b : Builder) (builders : List Builder)
    (o : Option LogicOperator) (b1 b2 : Builder)
    (h1 : b1.rsqlStr ≠ []) (h2 : b2.rsqlStr ≠ []) :
    (Builder.merge b builders o).1.rsqlStr
        = mergeSpecRendered b.rsqlStr (logicOperatorChar (o.getD b.defaultLogicOperator))
            (builders.map (fun x => x.rsqlStr))
    ∧ (Builder.mergeStatic [b1, b2] {}).1.rsqlStr
        = ('(' :: b1.rsqlStr ++ [')']) ++ ';' :: '(' :: b2.rsqlStr ++ [')'] := by
  refine ⟨merge_renders b builders o, ?_⟩
  unfold Builder.mergeStatic
  rw [merge_renders]
  show mergeSpecRendered [] ';' [b1.rsqlStr, b2.rsqlStr] = _
  simp only [mergeSpecRendered]
  have hs1 : ensuredStr ([] : List Char) ';' = [] := rfl
  rw [hs1, List.nil_append,
    ensuredStr_append_nonlogic ('(' :: b1.rsqlStr) ')' ';' (by decide)]
  simp [List.append_assoc]

def wb5 : Builder := { rsqlStr := ['x'] }

/-- Witness for C5 at concrete builders. -/
theorem merge_parenthesizes_each_builder_witness :
    (wb5.rsqlStr ≠ [])
    ∧ ((Builder.merge (Builder.new {}) [] none).1.rsqlStr
          = mergeSpecRendered (Builder.new {}).rsqlStr
              (logicOperatorChar ((none : Option LogicOperator).getD
                (Builder.new {}).defaultLogicOperator))
              (List.map (fun x : Builder => x.rsqlStr) ([] : List Builder))
        ∧ (Builder.mergeStatic [wb5, wb5] {}).1.rsqlStr
          = ('(' :: wb5.rsqlStr ++ [')']) ++ ';' :: '(' :: wb5.rsqlStr ++ [')']) :=
  ⟨by decide,
    merge_parenthesizes_each_builder (Builder.new {}) [] none wb5 wb5 (by decide) (by decide)⟩

/-- C6: toString returns the buffer verbatim without stripping a trailing
    dangling operator, and a logic operator appended to an empty builder
    yields a buffer consisting solely of that operator token. -/
theorem toString_returns_buffer_verbatim :
    (∀ b : Builder, Builder.toString b = b.rsqlStr)
    ∧ (∀ (b : Builder) (op : LogicOperator), b.rsqlStr = [] →
        Builder.toString (Builder.addLogicOperator b op) = [logicOperatorChar op])
    ∧ Builder.toString (Builder.and (Builder.new {})) = [';']
    ∧ Builder.toString (Builder.or (Builder.new {})) = [','] := by
  refine ⟨fun b => rfl, ?_, by decide, by decide⟩
  intro b op h
  unfold Builder.toString Builder.addLogicOperator appendLogicOperator
  simp [h, removeTrailingLogicOperator]

/-- Witness for C6 on an empty fresh builder. -/
theorem toString_returns_buffer_verbatim_witness :
    ((Builder.new {}).rsqlStr = [])
    ∧ Builder.toString (Builder.addLogicOperator (Builder.new {}) LogicOperator.or)
        = [logicOperatorChar LogicOperator.or] :=
  ⟨by decide, toString_returns_buffer_verbatim.2.1 (Builder.new {}) LogicOperator.or (by decide)⟩

def customEqBuilder : Builder :=
  Builder.new { customComparisonOperators := some [("equal".data, { rsql := "=eq=".data })] }

/-- C7: a custom table entry shadows the built-in entry of the same name;
    addComparison with a custom equal operator renders its literal. -/
theorem custom_operator_shadows_builtin :
    (∀ (b : Builder) (op : List Char) (spec : OperatorSpec),
        b.customComparisonOperators.lookup op = some spec →
        lookupComparisonOperator b op = some spec)
    ∧ (Builder.addComparison customEqBuilder "name".data "equal".data
        (.scalar (.str "Filip".data))).1.rsqlStr = "name=eq=\"Filip\"".data
    ∧ (Builder.addComparison customEqBuilder "name".data "equal".data
        (.scalar (.str "Filip".data))).2 = none := by
  refine ⟨?_, by decide, by decide⟩
  intro b op spec h
  unfold lookupComparisonOperator
  rw [h]
  rfl

/-- Witness for C7 at the concrete custom builder. -/
theorem custom_operator_shadows_builtin_witness :
    (customEqBuilder.customComparisonOperators.lookup "equal".data
        = some { rsql := "=eq=".data })
    ∧ lookupComparisonOperator customEqBuilder "equal".data = some { rsql := "=eq=".data } :=
  ⟨by decide,
    custom_operator_shadows_builtin.1 customEqBuilder "equal".data
      { rsql := "=eq=".data } (by decide)⟩

/-- C8: string serialization wraps in double quotes and prefixes each
    parenthesis, semicolon and comma with a backslash, leaving every
    other character unaltered. -/
theorem serialize_string_escapes_specials :
    (∀ v : List Char, valueToString (.str v) = some ('"' :: escapeString v ++ ['"']))
    ∧ (∀ v w : List Char, escapeString (v ++ w) = escapeString v ++ escapeString w)
    ∧ (∀ c : Char, (c = '(' ∨ c = ')' ∨ c = ';' ∨ c = ',') → escapeString [c] = ['\\', c])
    ∧ (∀ c : Char, ¬(c = '(' ∨ c = ')' ∨ c = ';' ∨ c = ',') → escapeString [c] = [c]) := by
  refine ⟨fun v => rfl, ?_, ?_, ?_⟩
  · intro v w
    unfold escapeString
    rw [List.map_append, List.flatten_append]
  · intro c hc
    rcases hc with h | h | h | h <;> subst h <;> decide
  · intro c hc
    unfold escapeString escapeChar
    have h1 : c ≠ '(' := fun h => hc (Or.inl h)
    have h2 : c ≠ ')' := fun h => hc (Or.inr (Or.inl h))
    have h3 : c ≠ ';' := fun h => hc (Or.inr (Or.inr (Or.inl h)))
    have h4 : c ≠ ',' := fun h => hc (Or.inr (Or.inr (Or.inr h)))
    simp [h1, h2, h3, h4]

/-- Witness for C8 at a special and a plain character. -/
theorem serialize_string_escapes_specials_witness :
    ((';' : Char) = '(' ∨ (';' : Char) = ')' ∨ (';' : Char) = ';' ∨ (';' : Char) = ',')
    ∧ escapeString [';'] = ['\\', ';'] :=
  ⟨by decide, serialize_string_escapes_specials.2.2.1 ';' (by decide)⟩

/-- C9: rendering is a total read of the buffer, every addComparison
    error is signalled by the call itself, and on error the previously
    accumulated buffer is kept as a prefix of the resulting buffer. -/
theorem errors_synchronous_no_rollback :
    (∀ b : Builder, Builder.toString b = b.rsqlStr)
    ∧ (∀ (b : Builder) (sel op : List Char) (v : CValue) (e : BuilderError),
        (Builder.addComparison b sel op v).2 = some e →
        ∃ t, (Builder.addComparison b sel op v).1.rsqlStr = b.rsqlStr ++ t) := by
  refine ⟨fun b => rfl, ?_⟩
  intro b sel op v e h
  obtain ⟨t, ht⟩ := ensureLogicOperator_suffix b none
  unfold Builder.addComparison at h ⊢
  cases hl : lookupComparisonOperator (ensureLogicOperator b none) op with
  | none =>
      simp only [hl]
      exact ⟨t, ht⟩
  | some spec =>
      simp only [hl] at h ⊢
      by_cases ha : spec.isArray = true
      · simp only [ha, if_true] at h ⊢
        cases harr : arrayStrings v with
        | none =>
            simp only [harr]
            exact ⟨t, ht⟩
        | some arr => simp [harr] at h
      · simp only [ha, if_false] at h ⊢
        cases v with
        | array vs => exact ⟨t, ht⟩
        | scalar sv =>
            cases hvs : valueToString sv with
            | none =>
                simp only [hvs]
                exact ⟨t, ht⟩
            | some str => simp [hvs] at h

def wb9 : Builder := { rsqlStr := "a==1".data }

/-- Witness for C9 at an unknown operator on a non-empty builder. -/
theorem errors_synchronous_no_rollback_witness :
    ((Builder.addComparison wb9 "x".data "bogus".data (.scalar .null)).2
        = some BuilderError.unknownOperator)
    ∧ ∃ t, (Builder.addComparison wb9 "x".data "bogus".data (.scalar .null)).1.rsqlStr
        = wb9.rsqlStr ++ t :=
  ⟨by decide,
    errors_synchronous_no_rollback.2 wb9 "x".data "bogus".data (.scalar .null)
      BuilderError.unknownOperator (by decide)⟩

/-- C10: concat, group and merge return their argument builders with
    buffer and configuration exactly as they were before the call. -/
theorem concat_group_merge_preserve_argument :
    (∀ b other : Builder, (Builder.concat b other).2 = other)
    ∧ (∀ b other : Builder, (Builder.group b other).2 = other)
    ∧ (∀ (b : Builder) (builders : List Builder) (o : Option LogicOperator),
        (Builder.merge b builders o).2 = builders) := by
  refine ⟨?_, fun b other => rfl, ?_⟩
  · intro b other
    unfold Builder.concat Builder.isEmptyM Builder.toStringM
    by_cases h : (other.rsqlStr.length == 0) = true
    · simp [h]
    · simp [h]
  · intro b builders o
    induction builders generalizing b with
    | nil => rfl
    | cons builder rest ih =>
        have hstep : (Builder.merge b (builder :: rest) o).2
            = builder ::
              (Builder.merge (Builder.group (ensureLogicOperator b o) builder).1 rest o).2 := rfl
        rw [hstep, ih]

/-- C1, evaluated at the repository's own test input: the number 68.3,
    exactly 683 / 10, is serialized through toFixed() to 68 with the
    fractional part dropped, so the equal comparison on weight renders
    weight==68 and not the weight==68.3 required by the claim. -/
theorem number_serialization_drops_fraction :
    valueToString (.num { num := 683, den := 10 }) = some "68".data
    ∧ (Builder.addComparison (Builder.new {}) "weight".data "equal".data
        (.scalar (.num { num := 683, den := 10 }))).1.rsqlStr = "weight==68".data
    ∧ "weight==68".data ≠ "weight==68.3".data := by
  refine ⟨by decide, by decide, by decide⟩

/-- C2, the array-operator sub-case evaluated: the array operator in
    applied to the scalar 30 raises no error and renders name=in=(30)
    by wrapping the scalar into a one-element list, while the converse
    sub-case, a scalar operator on an array value, does raise the
    mismatch error. -/
theorem array_operator_accepts_scalar_value :
    (Builder.addComparison (Builder.new {}) "name".data "in".data
        (.scalar (.num { num := 30 }))).2 = none
    ∧ (Builder.addComparison (Builder.new {}) "name".data "in".data
        (.scalar (.num { num := 30 }))).1.rsqlStr = "name=in=(30)".data
    ∧ (Builder.addComparison (Builder.new {}) "name".data "equal".data
        (.array [.num { num := 30 }])).2 = some BuilderError.arrayOperatorMismatch := by
  refine ⟨by decide, by decide, by decide⟩
